import Mathlib

/-!
Shallow embedding of the `view_reports` pipeline (`src/processor.py`) and
proofs about its specified behaviour.

Conventions of the embedding:
* a spreadsheet cell is `Option String`; `none` models pandas `NaN` / an
  empty cell;
* a pandas `DataFrame` is a list of column names plus a list of rows
  (each row a list of cells, positionally aligned with the columns);
* Python dicts keyed by file names are association lists in insertion
  order;
* string routines (`str.lower`, `str.strip`, the two regex substitutions
  of `normalize_dash`) are modelled character by character over
  `List Char`, with Python's ASCII whitespace class.
-/

namespace ViewReports

/-- A spreadsheet cell: `none` models pandas `NaN` / an empty cell. -/
abbrev Cell := Option String

/-! ### Character and string helpers (Python `str` operations) -/

/-- Python `\s` on the ASCII range: space, tab, newline, carriage return,
vertical tab, form feed. -/
def isWS (c : Char) : Bool :=
  c == ' ' || c == '\t' || c == '\n' || c == '\r' || c == '\x0b' || c == '\x0c'

/-- ASCII case folding for `str.lower()` (the file-name tokens that need
case folding are ASCII; other characters are unchanged). -/
def asciiLower (c : Char) : Char :=
  if 'A' ≤ c && c ≤ 'Z' then Char.ofNat (c.toNat + 32) else c

/-- ASCII case folding for `str.upper()`. -/
def asciiUpper (c : Char) : Char :=
  if 'a' ≤ c && c ≤ 'z' then Char.ofNat (c.toNat - 32) else c

/-- Models `file_name.lower()`. -/
def lowerStr (s : String) : String := ⟨s.data.map asciiLower⟩

/-- Models `file_name.upper()`. -/
def upperStr (s : String) : String := ⟨s.data.map asciiUpper⟩

/-- Tests whether `needle` is a prefix of `hay`. -/
def isPrefixL : List Char → List Char → Bool
  | [], _ => true
  | _ :: _, [] => false
  | a :: as, b :: bs => a == b && isPrefixL as bs

/-- Python's substring test `needle in hay`. -/
def containsSub (needle : List Char) : List Char → Bool
  | [] => needle.isEmpty
  | c :: rest => isPrefixL needle (c :: rest) || containsSub needle rest

/-- Python `needle in hay` on `String`s. -/
def strContains (hay needle : String) : Bool :=
  containsSub needle.data hay.data

/-- Models `hay.endswith(suffix)`. -/
def isSuffixL (suffix hay : List Char) : Bool :=
  isPrefixL suffix.reverse hay.reverse

/-- Models `name.lower().endswith((".xlsx", ".xls"))`: the test `map_house_numbers`
and `fill_template_files` use to select the files they process. -/
def isExcelName (name : String) : Bool :=
  isSuffixL ".xlsx".data (lowerStr name).data || isSuffixL ".xls".data (lowerStr name).data

/-- Models `str.strip()` (ASCII whitespace). -/
def stripWS (l : List Char) : List Char :=
  ((l.dropWhile isWS).reverse.dropWhile isWS).reverse

/-- Models `s.replace("–", "-").replace("—", "-")`: both replaced patterns are single
characters, so the two replacements are one character map. -/
def replaceDashChar (c : Char) : Char :=
  if c == '–' || c == '—' then '-' else c

/-- Scanner for `re.sub(r"\s*-\s*", " - ", s)`.  The flag records whether the
scanner is inside the `\s*` tail of a match just replaced (that whitespace is
consumed); `pend` holds (reversed) whitespace read but not yet emitted, which
is dropped if a `-` follows (it belongs to the `\s*` head of the match) and
emitted verbatim otherwise. -/
def subDashAux : Bool → List Char → List Char → List Char
  | afterDash, pend, [] => if afterDash then [] else pend.reverse
  | afterDash, pend, c :: rest =>
    if c == '-' then
      ' ' :: '-' :: ' ' :: subDashAux true [] rest
    else if isWS c then
      if afterDash then subDashAux true [] rest
      else subDashAux false (c :: pend) rest
    else
      (if afterDash then [c] else pend.reverse ++ [c]) ++ subDashAux false [] rest

/-- Models `re.sub(r"\s*-\s*", " - ", s)`: every `-` together with the whitespace
around it becomes `" - "`. -/
def subDash (l : List Char) : List Char := subDashAux false [] l

/-- Scanner for `re.sub(r"\s+", " ", s)`: the flag records whether the
previous character was whitespace already replaced by a single space. -/
def collapseWSAux : Bool → List Char → List Char
  | _, [] => []
  | inWS, c :: rest =>
    if isWS c then
      if inWS then collapseWSAux true rest
      else ' ' :: collapseWSAux true rest
    else c :: collapseWSAux false rest

/-- Models `re.sub(r"\s+", " ", s)`: collapse every whitespace run to one space. -/
def collapseWS (l : List Char) : List Char := collapseWSAux false l

/-- Models `normalize_dash` on the character list of a string: replace en/em dashes
by `-`, normalize whitespace around each dash to `" - "`, collapse whitespace
runs, and strip. -/
def normalizeDashL (l : List Char) : List Char :=
  stripWS (collapseWS (subDash (l.map replaceDashChar)))

/-- Models `normalize_dash` (`src/processor.py:136`) applied to a string.  (Applied
to a non-string, i.e. a `none` cell, the Python function returns `""`; call
sites model that case explicitly.) -/
def normalize_dash (s : String) : String := ⟨normalizeDashL s.data⟩

/-- Models `name_norm.split(" - ", 1)`: split at the first occurrence of `" - "`;
`none` when the separator does not occur (Python's `" - " not in name_norm`). -/
def splitFirstSep : List Char → Option (List Char × List Char)
  | [] => none
  | c :: rest =>
    if c == ' ' && rest.take 2 == ['-', ' '] then some ([], rest.drop 2)
    else
      match splitFirstSep rest with
      | some (l, r) => some (c :: l, r)
      | none => none

/-- Models `swap_dash` (`src/processor.py:145`): normalize, and if the result has the
form `"A - B"` return `"B - A"` (operands stripped), else `none`. -/
def swap_dash (s : String) : Option String :=
  match splitFirstSep (normalizeDashL s.data) with
  | none => none
  | some (l, r) => some ⟨stripWS r ++ ' ' :: '-' :: ' ' :: stripWS l⟩

/-! ### Stage 1: the extractor (`clean_input_files_to_excels`) -/

/-- Models `df.iloc[i].notna().any()`: the row has at least one non-empty cell. -/
def rowHasData (r : List Cell) : Bool :=
  r.any fun c => c.isSome

/-- Models `df.iloc[i].notna().sum()`: the number of non-empty cells of a row. -/
def rowFilled (r : List Cell) : Nat :=
  (r.filter fun c => c.isSome).length

/-- The density window `_find_table_start` tests at row `i`: row `i` has data
and each of rows `i+1 .. i+5` has data (a missing row counts as empty). -/
def densityWindow (g : List (List Cell)) (i : Nat) : Bool :=
  rowHasData (g.getD i []) &&
    (List.range 5).all fun j => rowHasData (g.getD (i + 1 + j) [])

/-- Models `_find_table_start` (`src/processor.py:35`): the first
`i ∈ range(len(df) - 5)` whose density window holds, else `none`. -/
def findTableStart (g : List (List Cell)) : Option Nat :=
  (List.range (g.length - 5)).find? fun i => densityWindow g i

/-- Models `_filter_rows` on the rows after the first: row `i > 0` is kept iff rows
`i` and `i-1` of the original table both have at least 4 non-empty cells;
`prev` is the original predecessor row. -/
def filterRowsFrom (prev : List Cell) : List (List Cell) → List (List Cell)
  | [] => []
  | r :: rs =>
    if 4 ≤ rowFilled r ∧ 4 ≤ rowFilled prev then r :: filterRowsFrom r rs
    else filterRowsFrom r rs

/-- Models `_filter_rows` (`src/processor.py:45`): keep row 0 iff it has ≥ 4
non-empty cells; keep row `i > 0` iff rows `i` and `i-1` both do. -/
def filterRows : List (List Cell) → List (List Cell)
  | [] => []
  | r :: rs =>
    if 4 ≤ rowFilled r then r :: filterRowsFrom r rs
    else filterRowsFrom r rs

/-- A cleaned sheet: the promoted header row and the data rows. -/
structure CleanedTable where
  header : List Cell
  data : List (List Cell)
deriving Repr, DecidableEq

/-- Column indices kept by `dropna(axis=1, how="all")` after header
promotion: column `j` survives iff some data row has a non-empty cell there. -/
def keepColIdxs (header : List Cell) (data : List (List Cell)) : List Nat :=
  (List.range header.length).filter fun j => data.any fun r => (r.getD j none).isSome

/-- Restrict a row to the listed column indices. -/
def selectIdxs (idxs : List Nat) (r : List Cell) : List Cell :=
  idxs.map fun j => r.getD j none

/-- Models `_finalize_cleaned` (`src/processor.py:60`): promote the first row to the
header, the rest is data, and drop all-empty columns; an empty table is left
as-is (modelled as `none`, it never passes the size gate). -/
def finalizeCleaned (rows : List (List Cell)) : Option CleanedTable :=
  match rows with
  | [] => none
  | h :: data =>
    let idxs := keepColIdxs h data
    some ⟨selectIdxs idxs h, data.map (selectIdxs idxs)⟩

/-- One worksheet through the per-sheet body of `clean_input_files_to_excels`
(`src/processor.py:92-104`): locate the table start, filter rows, promote the
header, and discard the sheet unless more than 15 data rows remain. -/
def cleanSheet (g : List (List Cell)) : Option CleanedTable :=
  match findTableStart g with
  | none => none
  | some s =>
    match finalizeCleaned (filterRows (g.drop s)) with
    | none => none
    | some t => if t.data.length ≤ 15 then none else some t

/-! ### Stage 2: the reconciler (`map_house_numbers`) -/

/-- A cleaned table as read back by stage 2: column names plus rows of cells,
positionally aligned. -/
structure Table where
  cols : List String
  rows : List (List Cell)
deriving Repr, DecidableEq

/-- A row of the reference-map workbook (`db_df`), restricted to the three
columns the pipeline reads: `HOUSE_NUMBER`, the canonical name
(`שם קשת טי וי`), and the vendor display name (`שם תכנית בפלטפורמה`). -/
structure DbRow where
  house : Cell
  keshet : Cell
  platform : Cell
deriving Repr, DecidableEq

/-- Models `name_len`: `len(str(x))` of the vendor display name; `astype(str)`
renders `NaN` as the 3-character string `"nan"`. -/
def platLen (r : DbRow) : Nat :=
  match r.platform with
  | some s => s.length
  | none => 3

/-- The `norm_name` column: `normalize_dash` of the canonical name
(`normalize_dash` returns `""` on a non-string, i.e. a `NaN` cell, so
`dropna(subset=["norm_name"])` drops nothing). -/
def normName (r : DbRow) : String :=
  match r.keshet with
  | some s => normalize_dash s
  | none => ""

/-- Models `drop_duplicates(subset=key, keep="first")`: keep the first row for each
key value; `seen` collects keys already kept. -/
def dedupFirstAux {α κ : Type} [DecidableEq κ] (key : α → κ) :
    List κ → List α → List α
  | _, [] => []
  | seen, x :: xs =>
    if key x ∈ seen then dedupFirstAux key seen xs
    else x :: dedupFirstAux key (key x :: seen) xs

/-- Models `drop_duplicates(subset=key, keep="first")` from an empty seen-set. -/
def dedupByKeyFirst {α κ : Type} [DecidableEq κ] (key : α → κ) (l : List α) : List α :=
  dedupFirstAux key [] l

/-- Models `df.drop_duplicates()`: exact-duplicate rows removed, first kept. -/
def dedupRows (rows : List (List Cell)) : List (List Cell) :=
  dedupFirstAux id [] rows

/-- Stable insertion into a list sorted by non-increasing `name_len`
(a row moves before the first strictly shorter one, so equal lengths keep
their relative order). -/
def insertByLenDesc (r : DbRow) : List DbRow → List DbRow
  | [] => [r]
  | x :: xs => if platLen x < platLen r then r :: x :: xs else x :: insertByLenDesc r xs

/-- Models `sort_values("name_len", ascending=False)` modelled as an insertion sort
by non-increasing `name_len`.  (The claims proved below never depend on the
order of rows with equal lengths, which pandas' quicksort does not fix.) -/
def sortByLenDesc : List DbRow → List DbRow
  | [] => []
  | r :: rs => insertByLenDesc r (sortByLenDesc rs)

/-- Models `db_name_groups` (`src/processor.py:203-208`): sort by descending vendor
display-name length, then keep the first row per `norm_name`, so each
normalized canonical name maps to its longest-vendor-name row. -/
def db_name_groups (db : List DbRow) : List DbRow :=
  dedupByKeyFirst normName (sortByLenDesc db)

/-- Row selected by the `name_to_house` / `name_to_platform` indexes for a
normalized key (a pandas `Series.map` lookup over the unique index). -/
def nameGroupRow (db : List DbRow) (k : String) : Option DbRow :=
  (db_name_groups db).find? fun r => normName r == k

/-- Models `name_to_house` lookup (`src/processor.py:209`). -/
def name_to_house (db : List DbRow) (k : String) : Cell :=
  (nameGroupRow db k).bind fun r => r.house

/-- Models `name_to_platform` lookup (`src/processor.py:210`). -/
def name_to_platform (db : List DbRow) (k : String) : Cell :=
  (nameGroupRow db k).bind fun r => r.platform

/-- Models `db_house_groups` (`src/processor.py:213-217`): longest vendor display
name per `HOUSE_NUMBER`. -/
def db_house_groups (db : List DbRow) : List DbRow :=
  dedupByKeyFirst (fun r => r.house) (sortByLenDesc db)

/-- Models `house_to_platform` lookup (`src/processor.py:218`). -/
def house_to_platform (db : List DbRow) (h : Cell) : Cell :=
  ((db_house_groups db).find? fun r => r.house == h).bind fun r => r.platform

/-- Models `db_by_keshet` (`src/processor.py:245-249`): rows with a canonical name,
first occurrence kept per canonical name. -/
def db_by_keshet (db : List DbRow) : List DbRow :=
  dedupByKeyFirst (fun r => r.keshet) (db.filter fun r => r.keshet.isSome)

/-- Models `db_by_platform` (`src/processor.py:250-254`): rows with a vendor display
name, first occurrence kept per vendor display name. -/
def db_by_platform (db : List DbRow) : List DbRow :=
  dedupByKeyFirst (fun r => r.platform) (db.filter fun r => r.platform.isSome)

/-- The row `m1` brings for a program value `p`: the left-join of the table's
program column against `db_by_keshet` on the canonical name (the right side is
deduplicated, so each left row gets at most one match, the first). -/
def kJoinRow (db : List DbRow) (p : Cell) : Option DbRow :=
  (db_by_keshet db).find? fun r => r.keshet == p

/-- The row `m2` brings for a program value `p`: the left-join against
`db_by_platform` on the vendor display name. -/
def pJoinRow (db : List DbRow) (p : Cell) : Option DbRow :=
  (db_by_platform db).find? fun r => r.platform == p

/-- Models `combine_first` on one pair of cells: the first where it is not `NaN`,
else the second. -/
def combineFirst (a b : Cell) : Cell :=
  match a with
  | some v => some v
  | none => b

/-- Models `norm_swapped` for one program value (`src/processor.py:278-280`):
`swap_dash` of the value, normalized; a `NaN` value or a swap failure gives
the key `""`. -/
def fallbackKey (p : Cell) : String :=
  match p with
  | none => ""
  | some s =>
    match swap_dash s with
    | none => ""
    | some sw => normalize_dash sw

/-- Models `swapped_house` for one program value: the `name_to_house` lookup of the
swapped, normalized key. -/
def fallbackHouse (db : List DbRow) (p : Cell) : Cell :=
  name_to_house db (fallbackKey p)

/-- Models `swapped_platform` for one program value. -/
def fallbackPlat (db : List DbRow) (p : Cell) : Cell :=
  name_to_platform db (fallbackKey p)

/-- The `HOUSE_NUMBER` column attached by the name branch
(`src/processor.py:256-287`): `m1`'s value combined-first with `m2`'s, and
where still empty, filled from the dash-swap fallback when that lookup finds a
house number (`fill_mask = no_match & swapped_house.notna()`). -/
def nameBranchHouses (db : List DbRow) (progs : List Cell) : List Cell :=
  let m1 := progs.map fun p => (kJoinRow db p).bind fun r => r.house
  let m2 := progs.map fun p => (pJoinRow db p).bind fun r => r.house
  let combined := List.zipWith combineFirst m1 m2
  List.zipWith (fun p h => if h.isSome then h else fallbackHouse db p) progs combined

/-- The platform-name column attached by the name branch: the two joins
combined first; rows whose combined `HOUSE_NUMBER` was empty and whose
fallback house lookup succeeded take the fallback platform instead. -/
def nameBranchPlats (db : List DbRow) (progs : List Cell) : List Cell :=
  let m1 := progs.map fun p => (kJoinRow db p).bind fun r => r.platform
  let m2 := progs.map fun p => (pJoinRow db p).bind fun r => r.platform
  let m1h := progs.map fun p => (kJoinRow db p).bind fun r => r.house
  let m2h := progs.map fun p => (pJoinRow db p).bind fun r => r.house
  let combinedH := List.zipWith combineFirst m1h m2h
  let combined := List.zipWith combineFirst m1 m2
  List.zipWith (fun ph pl =>
      if ph.2.isSome then pl
      else if (fallbackHouse db ph.1).isSome then fallbackPlat db ph.1 else pl)
    (List.zip progs combinedH) combined

/-- Index of the first column with the given name. -/
def colIdx (cols : List String) (c : String) : Option Nat :=
  cols.findIdx? fun x => x == c

/-- Value of a row at the column named `c` (`none` when the column is
absent). -/
def cellAt (cols : List String) (r : List Cell) (c : String) : Cell :=
  match colIdx cols c with
  | some i => r.getD i none
  | none => none

/-- Models `merged[c] = vals`: overwrite the column if present, else append it. -/
def setColumn (t : Table) (c : String) (vals : List Cell) : Table :=
  match colIdx t.cols c with
  | some i => ⟨t.cols, List.zipWith (fun r v => r.set i v) t.rows vals⟩
  | none => ⟨t.cols ++ [c], List.zipWith (fun r v => r ++ [v]) t.rows vals⟩

/-- One row under `df.drop(columns=drop)`: keep the cells whose column name
is not dropped. -/
def dropRowCells (cols drop : List String) (r : List Cell) : List Cell :=
  ((cols.zip r).filter fun pr => !(drop.contains pr.1)).map fun pr => pr.2

/-- Models `df.drop(columns=drop, errors="ignore")`: remove every column whose name
is in `drop`, keeping the rest in order. -/
def dropColumns (t : Table) (drop : List String) : Table :=
  ⟨t.cols.filter fun c => !(drop.contains c), t.rows.map (dropRowCells t.cols drop)⟩

/-- The program-name branch of `map_house_numbers` (`src/processor.py:243-291`):
attach the `HOUSE_NUMBER` and platform-name columns computed from the two
left-joins and the dash-swap fallback, drop the reference-map name columns,
and remove exact-duplicate rows. -/
def nameBranchTable (db : List DbRow) (pc : String) (t : Table) : Table :=
  let progs := t.rows.map fun r => cellAt t.cols r pc
  let t1 := setColumn t "HOUSE_NUMBER" (nameBranchHouses db progs)
  let t2 := setColumn t1 "שם תכנית בפלטפורמה" (nameBranchPlats db progs)
  let t3 := dropColumns t2 ["שם תכנית בפלטפורמה", "שם קשת טי וי"]
  ⟨t3.cols, dedupRows t3.rows⟩

/-- The reference rows a house-key value joins to (pandas left-merge matches
`NaN` keys against `NaN` `HOUSE_NUMBER` entries, which `Option` equality
reproduces). -/
def houseMatches (db : List DbRow) (key : Cell) : List DbRow :=
  db.filter fun r => r.house == key

/-- The house-key branch of `map_house_numbers` (`src/processor.py:299-317`):
left-join the table's house-key column against the (non-deduplicated)
reference map on `HOUSE_NUMBER` — duplicating left rows with several matches —
bring across `HOUSE_NUMBER` and the platform name, drop those columns, and
remove exact-duplicate rows. -/
def houseBranchTable (db : List DbRow) (hc : String) (t : Table) : Table :=
  let mergedRows :=
    (t.rows.map fun r =>
      match houseMatches db (cellAt t.cols r hc) with
      | [] => [r ++ [none, none]]
      | ms => ms.map fun m => r ++ [m.house, m.platform]).flatten
  let merged : Table := ⟨t.cols ++ ["HOUSE_NUMBER", "שם תכנית בפלטפורמה"], mergedRows⟩
  let t2 := dropColumns merged ["HOUSE_NUMBER"]
  let t3 := dropColumns t2 ["שם תכנית בפלטפורמה", "שם קשת טי וי"]
  ⟨t3.cols, dedupRows t3.rows⟩

/-- Models `_decide_program_col` (`src/processor.py:158`). -/
def decideProgramCol (file_name : String) : Option String :=
  if strContains file_name "פרטנר" then some "שם תוכן"
  else if strContains file_name "יס" then some "תאור אירוע"
  else if strContains (lowerStr file_name) "screenil" then some "Title Translation"
  else if strContains file_name "סטינג"
      && (strContains (lowerStr file_name) "vod" || strContains file_name "VOD") then
    some "שם מלא"
  else if strContains file_name "סטינג" then some "תוכן"
  else none

/-- Models `_decide_house_key_col` (`src/processor.py:175`). -/
def decideHouseKeyCol (file_name : String) : Option String :=
  if strContains file_name "סלקום" then some "קוד מזהה"
  else if strContains file_name "הוט"
      && (strContains file_name "ספריה" || strContains file_name "ספרייה") then
    some "מזהה ייחודי קשת"
  else if strContains (upperStr file_name) "NEXT" then some "מזהה ייחודי קשת NP"
  else none

/-- The per-file branch selection of `map_house_numbers`
(`src/processor.py:228-329`): the name branch when the program column rule
resolves, else the house-key branch when that rule resolves, else (or when
the resolved column is absent from the table) the table unchanged. -/
def processTable (db : List DbRow) (name : String) (t : Table) : Table :=
  match decideProgramCol name with
  | some pc => if pc ∈ t.cols then nameBranchTable db pc t else t
  | none =>
    match decideHouseKeyCol name with
    | some hc => if hc ∈ t.cols then houseBranchTable db hc t else t
    | none => t

/-- The file loop of `map_house_numbers` (`src/processor.py:220-331`): files
whose names do not end in `.xlsx`/`.xls` are skipped; every other cleaned file
yields exactly one `mapped_`-prefixed output. -/
def mapHouseNumbers (db : List DbRow) (files : List (String × Table)) :
    List (String × Table) :=
  files.filterMap fun ft =>
    if isExcelName ft.1 then some ("mapped_" ++ ft.1, processTable db ft.1 ft.2)
    else none

/-! ### C10: the house-key branch as deduplication of the input -/

/-- Modelled from the claim (refinement side): the input table with
exact-duplicate rows removed, first occurrence kept, original row order
preserved. -/
def specHouseBranchOutput (t : Table) : Table :=
  ⟨t.cols, dedupRows t.rows⟩

/-! ### Stage 3: the populator (`fill_template_files`) -/

/-- Models `_decide_template_program_col` (`src/processor.py:337`). -/
def decideTemplateProgramCol (file_name : String) : Option String :=
  if strContains file_name "פרטנר" then some "שם תוכן"
  else if strContains file_name "יס" then some "תאור אירוע"
  else if strContains (lowerStr file_name) "screenil" then some "Title Translation"
  else if strContains file_name "סטינג"
      && (strContains (lowerStr file_name) "vod" || strContains file_name "VOD") then
    some "שם מלא"
  else if strContains file_name "סטינג" then some "תוכן"
  else if strContains file_name "סלקום" then some "שם פריט"
  else if strContains file_name "הוט"
      && (strContains file_name "ספריה" || strContains file_name "ספרייה") then
    some "שם כותר"
  else if strContains (upperStr file_name) "NEXT" then some "שם כותר NP"
  else none

/-- Models `_decide_mapped_house_col` (`src/processor.py:360`): total, with
`HOUSE_NUMBER` as the default. -/
def decideMappedHouseCol (file_name : String) : String :=
  if strContains file_name "סלקום" then "קוד מזהה"
  else if strContains file_name "הוט"
      && (strContains file_name "ספריה" || strContains file_name "ספרייה") then
    "מזהה ייחודי קשת"
  else if strContains (upperStr file_name) "NEXT" then "מזהה ייחודי קשת NP"
  else "HOUSE_NUMBER"

/-- Models `_decide_viewers_col` (`src/processor.py:371`). -/
def decideViewersCol (file_name : String) : Option String :=
  if strContains file_name "פרטנר" then some "סה\"כ צפיות"
  else if strContains file_name "יס" then some "כמות הזמנות"
  else if strContains (lowerStr file_name) "screenil" then some "Sessions"
  else if strContains file_name "סטינג"
      && (strContains (lowerStr file_name) "vod" || strContains file_name "VOD") then
    some "כמות צופים"
  else if strContains file_name "סטינג" then some "כמות צופים"
  else if strContains file_name "סלקום" then some "כמות הזמנות"
  else if strContains file_name "הוט"
      && (strContains file_name "ספריה" || strContains file_name "ספרייה") then
    some "סהכ הזמנות VOD"
  else if strContains (upperStr file_name) "NEXT" then some "כמות הזמנות"
  else none

/-- Models `_decide_platform_label` (`src/processor.py:394`). -/
def decidePlatformLabel (file_name : String) : Option String :=
  if strContains file_name "פרטנר" then some "פרטנר"
  else if strContains file_name "יס" then some "YES"
  else if strContains (lowerStr file_name) "screenil" then some "ScreenIL"
  else if strContains file_name "סטינג"
      && (strContains (lowerStr file_name) "vod" || strContains file_name "VOD") then
    some "YES"
  else if strContains file_name "סטינג" then some "YES"
  else if strContains file_name "סלקום" then some "סלקום"
  else if strContains file_name "הוט"
      && (strContains file_name "ספריה" || strContains file_name "ספרייה") then
    some "HOT"
  else if strContains (upperStr file_name) "NEXT" then some "NEXT"
  else none

/-- Models `str.strip()` on a `String`. -/
def stripStr (s : String) : String := ⟨stripWS s.data⟩

/-- The template's fixed header row index (`HEADER_ROW = 4`). -/
def HEADER_ROW : Nat := 4

/-- The `header_map` lookup built from the row-4 cells
(`src/processor.py:483-488`): the dict comprehension maps each stripped cell
text to its 1-based column, later duplicates overwriting earlier ones, so a
label resolves to the last matching cell's column. -/
def headerColIdx (headers : List Cell) (label : String) : Option Nat :=
  (headers.enum.filterMap fun pv =>
      match pv.2 with
      | some s => if stripStr s == label then some (pv.1 + 1) else none
      | none => none).getLast?

/-- Models `str(x)` for a cell being written as text: `str(nan)` is `"nan"`. -/
def pyStr (c : Cell) : String :=
  match c with
  | some s => s
  | none => "nan"

/-- Models `pd.isna(prog) and pd.isna(house) and pd.isna(viewers)`. -/
def rowEmpty3 (p h v : Cell) : Bool :=
  p == none && h == none && v == none

/-- The row-appending loop of `fill_template_files`
(`src/processor.py:515-524`): fully-empty source rows are skipped without
consuming a row slot; any other row writes its program (as text), house
identifier (raw), viewer count (raw) and the month string into the four
resolved columns at the current row, then the row index advances by one. -/
def writeLoop (pIdx hIdx vIdx dIdx : Nat) (month : String) :
    Nat → List (Cell × Cell × Cell) → List (Nat × Nat × Cell)
  | _, [] => []
  | i, (p, h, v) :: rs =>
    if rowEmpty3 p h v then writeLoop pIdx hIdx vIdx dIdx month i rs
    else
      (i, pIdx, some (pyStr p)) :: (i, hIdx, h) :: (i, vIdx, v) :: (i, dIdx, some month)
        :: writeLoop pIdx hIdx vIdx dIdx month (i + 1) rs

/-- The observable result of filling one template copy: the metadata cells and
the data-region cell writes.  (The highlight fills of `Q5:Q9`/`P5:P16` are
formatting side effects and are not modelled.) -/
structure FilledDoc where
  monthCell : String
  platformCell : Cell
  cells : List (Nat × Nat × Cell)
deriving Repr, DecidableEq

/-- The per-file body of `fill_template_files` (`src/processor.py:430-530`):
skip non-Excel names; resolve the program, viewers, platform and house-column
roles from the file name; skip the file if the program or viewers role is
unresolved, if any resolved source column is absent from the table, or if the
template's row-4 headers lack one of the four required labels; otherwise
produce exactly one filled document. -/
def fillOne (templateHeaders : List Cell) (month : String)
    (name : String) (t : Table) : Option FilledDoc :=
  if !(isExcelName name) then none else
  match decideTemplateProgramCol name with
  | none => none
  | some progCol =>
    match decideViewersCol name with
    | none => none
    | some viewersCol =>
      let platform := decidePlatformLabel name
      let houseCol := decideMappedHouseCol name
      if progCol ∈ t.cols then
        if houseCol ∈ t.cols then
          if viewersCol ∈ t.cols then
            match headerColIdx templateHeaders "שם תוכנית בפלטפורמה",
                headerColIdx templateHeaders "מספר האוס בקשת TV",
                headerColIdx templateHeaders "כמות צפיות",
                headerColIdx templateHeaders "תאריך" with
            | some pIdx, some hIdx, some vIdx, some dIdx =>
              let src := t.rows.map fun r =>
                (cellAt t.cols r progCol, cellAt t.cols r houseCol, cellAt t.cols r viewersCol)
              some ⟨month, platform, writeLoop pIdx hIdx vIdx dIdx month (HEADER_ROW + 1) src⟩
            | _, _, _, _ => none
          else none
        else none
      else none

/-! ### C9: dash normalization and the swap operation -/

/-- The character contains none of the three dash characters `-`, `–`, `—`. -/
def noDashChar (c : Char) : Bool :=
  !(c == '-' || c == '–' || c == '—')

/-- No two adjacent whitespace characters. -/
def normSpaced : List Char → Bool
  | [] => true
  | [_] => true
  | a :: b :: rest => !(isWS a && isWS b) && normSpaced (b :: rest)

/-- A clean operand string: nonempty, free of the three dash characters, with
plain single spaces as its only whitespace and none at either end. -/
def cleanOp (l : List Char) : Bool :=
  !l.isEmpty
    && l.all (fun c => noDashChar c && (!(isWS c) || c == ' '))
    && normSpaced l
    && (match l.head? with | some c => !(isWS c) | none => true)
    && (match l.getLast? with | some c => !(isWS c) | none => true)

/-! ## Theorems -/

/-! ### Lemmas about `find?` over an index range -/

lemma find?_range'_eq_some (p : Nat → Bool) :
    ∀ (n s b : Nat), s ≤ b → b < s + n → p b = true →
      (∀ i, s ≤ i → i < b → p i = false) →
      (List.range' s n).find? p = some b := by
  intro n
  induction n with
  | zero => intro s b hsb hb _ _; omega
  | succ n ih =>
    intro s b hsb hb hpb hmin
    rw [List.range'_succ]
    rcases Nat.eq_or_lt_of_le hsb with heq | hlt
    · subst heq
      simp [List.find?, hpb]
    · have hps : p s = false := hmin s le_rfl hlt
      rw [List.find?_cons_of_neg _ (by simp [hps])]
      exact ih (s + 1) b hlt (by omega) hpb (fun i h1 h2 => hmin i (by omega) h2)

/-! ### C5: table-start detection -/

/-- Claim C5: for every raw grid containing a contiguous dense block of at least
6 rows preceded only by empty (sparse) rows, `_find_table_start` returns the
index of the first row of that block; and when no row `i` has data together
with each of the 5 following rows, the sheet yields no table start. -/
theorem c5_table_start_detection (g : List (List Cell)) :
    (∀ b : Nat,
        (∀ j, j < b → rowHasData (g.getD j []) = false) →
        (∀ j, b ≤ j → j ≤ b + 5 → j < g.length ∧ rowHasData (g.getD j []) = true) →
        findTableStart g = some b)
  ∧ ((∀ i, densityWindow g i = false) → findTableStart g = none) := by
  constructor
  · intro b hbefore hdense
    have hblen : b + 5 < g.length := (hdense (b + 5) (by omega) (by omega)).1
    have hwin : densityWindow g b = true := by
      unfold densityWindow
      rw [Bool.and_eq_true]
      refine ⟨(hdense b le_rfl (by omega)).2, ?_⟩
      rw [List.all_eq_true]
      intro j hj
      have hj5 : j < 5 := List.mem_range.mp hj
      exact (hdense (b + 1 + j) (by omega) (by omega)).2
    unfold findTableStart
    rw [List.range_eq_range']
    refine find?_range'_eq_some _ _ 0 b (Nat.zero_le b) (by omega) hwin ?_
    intro i _ hib
    unfold densityWindow
    rw [hbefore i hib]
    simp
  · intro h
    unfold findTableStart
    rw [List.find?_eq_none]
    intro i _
    simp [h i]

/-- Concrete instance for C5: a grid whose dense block starts at row 1 after an
empty row, and the empty grid for the no-window case. -/
theorem c5_witness :
    findTableStart [[], [some "a"], [some "a"], [some "a"], [some "a"], [some "a"], [some "a"]]
        = some 1
  ∧ findTableStart ([] : List (List Cell)) = none := by
  constructor
  · refine (c5_table_start_detection _).1 1 ?_ ?_
    · intro j hj
      interval_cases j
      decide
    · intro j h1 h2
      interval_cases j <;> exact ⟨by decide, by decide⟩
  · refine (c5_table_start_detection _).2 ?_
    intro i
    simp [densityWindow, rowHasData]

/-! ### C8: row-filter idempotence -/

lemma mem_filterRowsFrom : ∀ (l : List (List Cell)) (p r : List Cell),
    r ∈ filterRowsFrom p l → 4 ≤ rowFilled r := by
  intro l
  induction l with
  | nil => intro p r h; simp [filterRowsFrom] at h
  | cons x xs ih =>
    intro p r h
    simp only [filterRowsFrom] at h
    split at h
    next hc =>
      rcases List.mem_cons.mp h with h1 | h2
      · subst h1; exact hc.1
      · exact ih x r h2
    next => exact ih x r h

lemma mem_filterRows (l : List (List Cell)) (r : List Cell)
    (h : r ∈ filterRows l) : 4 ≤ rowFilled r := by
  cases l with
  | nil => simp [filterRows] at h
  | cons x xs =>
    simp only [filterRows] at h
    split at h
    next hc =>
      rcases List.mem_cons.mp h with h1 | h2
      · subst h1; exact hc
      · exact mem_filterRowsFrom xs x r h2
    next => exact mem_filterRowsFrom xs x r h

lemma filterRowsFrom_of_all : ∀ (l : List (List Cell)) (p : List Cell),
    4 ≤ rowFilled p → (∀ r ∈ l, 4 ≤ rowFilled r) → filterRowsFrom p l = l := by
  intro l
  induction l with
  | nil => intro p _ _; rfl
  | cons x xs ih =>
    intro p hp hall
    simp only [filterRowsFrom]
    rw [if_pos ⟨hall x (List.mem_cons_self x xs), hp⟩]
    rw [ih x (hall x (List.mem_cons_self x xs)) fun r hr => hall r (List.mem_cons_of_mem x hr)]

lemma filterRows_of_all (l : List (List Cell)) (hall : ∀ r ∈ l, 4 ≤ rowFilled r) :
    filterRows l = l := by
  cases l with
  | nil => rfl
  | cons x xs =>
    simp only [filterRows]
    rw [if_pos (hall x (List.mem_cons_self x xs))]
    rw [filterRowsFrom_of_all xs x (hall x (List.mem_cons_self x xs))
      fun r hr => hall r (List.mem_cons_of_mem x hr)]

/-- Claim C8: the extractor's density row filter is idempotent: applying
`_filter_rows` twice equals applying it once. -/
theorem c8_filter_rows_idempotent (t : List (List Cell)) :
    filterRows (filterRows t) = filterRows t :=
  filterRows_of_all (filterRows t) fun r hr => mem_filterRows t r hr

/-! ### C3: the size gate -/

/-- Claim C3: a worksheet whose table start was detected is emitted by the
extractor iff more than 15 data rows remain after header promotion (the
filtered row count minus the promoted header row). -/
lemma cleanSheet_eq_of_start (g : List (List Cell)) (s : Nat)
    (hs : findTableStart g = some s) :
    cleanSheet g =
      match finalizeCleaned (filterRows (g.drop s)) with
      | none => none
      | some t => if t.data.length ≤ 15 then none else some t := by
  unfold cleanSheet
  rw [hs]

theorem c3_size_gate (g : List (List Cell)) (s : Nat)
    (hs : findTableStart g = some s) :
    (cleanSheet g).isSome ↔ 15 < (filterRows (g.drop s)).length - 1 := by
  rw [cleanSheet_eq_of_start g s hs]
  rcases hf : filterRows (g.drop s) with _ | ⟨h, data⟩
  · simp [finalizeCleaned]
  · simp only [finalizeCleaned, List.length_cons, List.length_map]
    by_cases hle : data.length ≤ 15
    · simp only [if_pos hle, Option.isSome_none, Bool.false_eq_true, false_iff]
      omega
    · simp only [if_neg hle, Option.isSome_some, true_iff]
      omega

/-- Concrete boundary instances for C3: with 17 surviving rows (16 data rows)
the sheet is kept, with 16 surviving rows (15 data rows) it is discarded. -/
theorem c3_witness :
    (cleanSheet (List.replicate 17 [some "a", some "b", some "c", some "d"])).isSome
  ∧ ¬ (cleanSheet (List.replicate 16 [some "a", some "b", some "c", some "d"])).isSome := by
  constructor
  · exact (c3_size_gate _ 0 (by decide)).mpr (by decide)
  · intro hcontra
    exact absurd ((c3_size_gate _ 0 (by decide)).mp hcontra) (by decide)

/-! ### C1: first-match-wins name reconciliation -/

/-- Claim C1: in the name branch, the `HOUSE_NUMBER` attached to each row is the
canonical-name join result when that join produced a value, otherwise the
vendor-display-name join result, otherwise the dash-swap fallback result —
and when even the fallback finds nothing, the field stays empty (`some none`:
the row is present with an empty `HOUSE_NUMBER`), never an error. -/
theorem c1_name_branch_first_match (db : List DbRow) (progs : List Cell)
    (i : Nat) (p : Cell) (hp : progs[i]? = some p) :
    (∀ v, ((kJoinRow db p).bind fun r => r.house) = some v →
        (nameBranchHouses db progs)[i]? = some (some v))
  ∧ (((kJoinRow db p).bind fun r => r.house) = none →
      ∀ v, ((pJoinRow db p).bind fun r => r.house) = some v →
        (nameBranchHouses db progs)[i]? = some (some v))
  ∧ (((kJoinRow db p).bind fun r => r.house) = none →
      ((pJoinRow db p).bind fun r => r.house) = none →
        (nameBranchHouses db progs)[i]? = some (fallbackHouse db p)) := by
  have key : (nameBranchHouses db progs)[i]? =
      some (if (combineFirst ((kJoinRow db p).bind fun r => r.house)
                  ((pJoinRow db p).bind fun r => r.house)).isSome then
              combineFirst ((kJoinRow db p).bind fun r => r.house)
                ((pJoinRow db p).bind fun r => r.house)
            else fallbackHouse db p) := by
    simp [nameBranchHouses, List.getElem?_zipWith', List.getElem?_map, hp]
  refine ⟨?_, ?_, ?_⟩
  · intro v hv
    rw [key, hv]
    simp [combineFirst]
  · intro h0 v hv
    rw [key, h0, hv]
    simp [combineFirst]
  · intro h0 h1
    rw [key, h0, h1]
    simp [combineFirst]

/-- Concrete instance for C1: a single-row table whose program value matches
the canonical name of the only reference row. -/
theorem c1_witness :
    (nameBranchHouses [⟨some "7001", some "Show", some "Show Plat"⟩]
        [some "Show"])[0]? = some (some "7001") :=
  (c1_name_branch_first_match _ _ 0 (some "Show") rfl).1 "7001" (by decide)

/-! ### C2: deduplication tie-breaks -/

/-- Claim C2: with two reference rows sharing a canonical name (and house
number) but vendor display names of different lengths, the name-based join
lookups keep the first-seen row (and each distinct vendor name its own row),
while the swapped-dash fallback lookup and the house-number collapse keep the
row with the longest vendor display name. -/
theorem c2_dedup_tiebreaks (r1 r2 : DbRow) (k h p1 p2 : String)
    (hk1 : r1.keshet = some k) (hk2 : r2.keshet = some k)
    (hh1 : r1.house = some h) (hh2 : r2.house = some h)
    (hp1 : r1.platform = some p1) (hp2 : r2.platform = some p2)
    (hlen : p1.length < p2.length) :
    kJoinRow [r1, r2] (some k) = some r1
  ∧ pJoinRow [r1, r2] (some p1) = some r1
  ∧ pJoinRow [r1, r2] (some p2) = some r2
  ∧ nameGroupRow [r1, r2] (normalize_dash k) = some r2
  ∧ house_to_platform [r1, r2] (some h) = some p2 := by
  have hne : p1 ≠ p2 := fun he => absurd hlen (by rw [he]; exact lt_irrefl _)
  have hpl1 : platLen r1 = p1.length := by simp [platLen, hp1]
  have hpl2 : platLen r2 = p2.length := by simp [platLen, hp2]
  have hsort : sortByLenDesc [r1, r2] = [r2, r1] := by
    simp only [sortByLenDesc, insertByLenDesc]
    rw [if_neg (by rw [hpl1, hpl2]; omega)]
  refine ⟨?_, ?_, ?_, ?_, ?_⟩
  · simp [kJoinRow, db_by_keshet, dedupByKeyFirst, dedupFirstAux, hk1, hk2, List.find?]
  · simp [pJoinRow, db_by_platform, dedupByKeyFirst, dedupFirstAux, hp1, hp2,
      Ne.symm hne, List.find?]
  · simp [pJoinRow, db_by_platform, dedupByKeyFirst, dedupFirstAux, hp1, hp2,
      Ne.symm hne, hne, List.find?]
  · simp [nameGroupRow, db_name_groups, dedupByKeyFirst, hsort, dedupFirstAux,
      normName, hk1, hk2, List.find?]
  · simp [house_to_platform, db_house_groups, dedupByKeyFirst, hsort, dedupFirstAux,
      hh1, hh2, hp2, List.find?]

/-- Concrete instance for C2: two reference rows with canonical name `"Show"`,
house number `"801"`, and vendor names `"AB"` / `"ABCD"`. -/
theorem c2_witness :
    nameGroupRow [⟨some "801", some "Show", some "AB"⟩, ⟨some "801", some "Show", some "ABCD"⟩]
        (normalize_dash "Show") = some ⟨some "801", some "Show", some "ABCD"⟩
  ∧ house_to_platform
        [⟨some "801", some "Show", some "AB"⟩, ⟨some "801", some "Show", some "ABCD"⟩]
        (some "801") = some "ABCD" := by
  have hmain := c2_dedup_tiebreaks ⟨some "801", some "Show", some "AB"⟩
    ⟨some "801", some "Show", some "ABCD"⟩ "Show" "801" "AB" "ABCD"
    rfl rfl rfl rfl rfl rfl (by decide)
  exact ⟨hmain.2.2.2.1, hmain.2.2.2.2⟩

lemma contains_eq_false_of_not_mem {l : List String} {c : String} (h : c ∉ l) :
    l.contains c = false := by
  induction l with
  | nil => rfl
  | cons x xs ih =>
    simp only [List.contains_cons, Bool.or_eq_false_iff]
    refine ⟨?_, ih fun hm => h (List.mem_cons_of_mem x hm)⟩
    simp only [beq_eq_false_iff_ne, ne_eq]
    exact fun he => h (he ▸ List.mem_cons_self x xs)

lemma filter_not_contains_eq_self (cols drop : List String)
    (h : ∀ c ∈ cols, c ∉ drop) :
    (cols.filter fun c => !(drop.contains c)) = cols :=
  List.filter_eq_self.mpr fun c hc => by
    rw [contains_eq_false_of_not_mem (h c hc)]; rfl

lemma dropRowCells_append (cols1 cols2 drop : List String) (r1 r2 : List Cell)
    (h : cols1.length = r1.length) :
    dropRowCells (cols1 ++ cols2) drop (r1 ++ r2)
      = dropRowCells cols1 drop r1 ++ dropRowCells cols2 drop r2 := by
  unfold dropRowCells
  rw [List.zip_append h, List.filter_append, List.map_append]

lemma dropRowCells_id (cols drop : List String) (r : List Cell)
    (hlen : cols.length = r.length) (h : ∀ c ∈ cols, c ∉ drop) :
    dropRowCells cols drop r = r := by
  unfold dropRowCells
  rw [List.filter_eq_self.mpr]
  · exact List.map_snd_zip cols r (le_of_eq hlen.symm)
  · rintro ⟨a, b⟩ hpr
    rw [contains_eq_false_of_not_mem (h a (List.of_mem_zip hpr).1)]
    rfl

lemma dedup_absorb : ∀ (b : List (List Cell)) (x : List Cell)
    (rest seen : List (List Cell)),
    (∀ y ∈ b, y = x) → x ∈ seen →
    dedupFirstAux id seen (b ++ rest) = dedupFirstAux id seen rest := by
  intro b
  induction b with
  | nil => intro x rest seen _ _; rfl
  | cons y b' ih =>
    intro x rest seen hall hin
    obtain rfl : y = x := hall y (List.mem_cons_self y b')
    simp only [List.cons_append, dedupFirstAux, id_eq, hin, if_true]
    exact ih y rest seen (fun u hu => hall u (List.mem_cons_of_mem _ hu)) hin

lemma dedup_block (b : List (List Cell)) (x : List Cell)
    (rest seen : List (List Cell)) (hne : b ≠ []) (hall : ∀ y ∈ b, y = x) :
    dedupFirstAux id seen (b ++ rest) = dedupFirstAux id seen (x :: rest) := by
  rcases b with _ | ⟨y, b'⟩
  · exact absurd rfl hne
  · obtain rfl : y = x := hall y (List.mem_cons_self y b')
    simp only [List.cons_append]
    by_cases hin : y ∈ seen
    · simp only [dedupFirstAux, id_eq, hin, if_true]
      exact dedup_absorb b' y rest seen (fun u hu => hall u (List.mem_cons_of_mem _ hu)) hin
    · simp only [dedupFirstAux, id_eq, hin, if_false]
      congr 1
      exact dedup_absorb b' y rest (y :: seen)
        (fun u hu => hall u (List.mem_cons_of_mem _ hu)) (List.mem_cons_self y seen)

lemma dedup_flatten_blocks (f : List Cell → List (List Cell)) :
    ∀ (xs : List (List Cell)),
      (∀ x ∈ xs, f x ≠ [] ∧ ∀ y ∈ f x, y = x) →
      ∀ seen, dedupFirstAux id seen (xs.map f).flatten = dedupFirstAux id seen xs := by
  intro xs
  induction xs with
  | nil => intro _ _; rfl
  | cons x xs' ih =>
    intro hf seen
    simp only [List.map_cons, List.flatten_cons]
    rw [dedup_block (f x) x ((xs'.map f).flatten) seen (hf x (List.mem_cons_self x xs')).1
      (hf x (List.mem_cons_self x xs')).2]
    by_cases hin : x ∈ seen
    · simp only [dedupFirstAux, id_eq, hin, if_true]
      exact ih (fun u hu => hf u (List.mem_cons_of_mem _ hu)) seen
    · simp only [dedupFirstAux, id_eq, hin, if_false]
      congr 1
      exact ih (fun u hu => hf u (List.mem_cons_of_mem _ hu)) (x :: seen)

/-- C10 counterexample: a table that also carries a column literally named
after the reference map's canonical-name column (`שם קשת טי וי`).  The branch
drops that column too (`drop(columns=[...], errors="ignore")`), so the output
is not the deduplicated input. -/
theorem c10_counterexample :
    houseBranchTable [] "קוד מזהה" ⟨["קוד מזהה", "שם קשת טי וי"], [[some "1", some "x"]]⟩
      ≠ specHouseBranchOutput ⟨["קוד מזהה", "שם קשת טי וי"], [[some "1", some "x"]]⟩ := by
  decide

/-- Claim C10 (amended): for every table whose columns include the resolved
house-key column but none of `HOUSE_NUMBER`, the reference map's platform-name
column, or the reference map's canonical-name column, the house-key branch
returns exactly the input table with exact duplicate rows removed (first
occurrence kept, order preserved): both joined-in columns are dropped before
deduplication. -/
theorem c10_house_branch_refinement (db : List DbRow) (t : Table) (hc : String)
    (hmem : hc ∈ t.cols)
    (hH : "HOUSE_NUMBER" ∉ t.cols)
    (hP : "שם תכנית בפלטפורמה" ∉ t.cols)
    (hK : "שם קשת טי וי" ∉ t.cols)
    (hlen : ∀ r ∈ t.rows, r.length = t.cols.length) :
    houseBranchTable db hc t = specHouseBranchOutput t := by
  have hcols1 : ∀ c ∈ t.cols, c ∉ ["HOUSE_NUMBER"] := by
    intro c hcm
    simp only [List.mem_singleton]
    exact fun he => hH (he ▸ hcm)
  have hcols2 : ∀ c ∈ t.cols, c ∉ ["שם תכנית בפלטפורמה", "שם קשת טי וי"] := by
    intro c hcm
    simp only [List.mem_cons, List.not_mem_nil, or_false, not_or]
    exact ⟨fun he => hP (he ▸ hcm), fun he => hK (he ▸ hcm)⟩
  have hcols2eq : (t.cols ++ ["HOUSE_NUMBER", "שם תכנית בפלטפורמה"]).filter
      (fun c => !(["HOUSE_NUMBER"].contains c)) = t.cols ++ ["שם תכנית בפלטפורמה"] := by
    rw [List.filter_append, filter_not_contains_eq_self _ _ hcols1]
    rfl
  have hcols3eq : (t.cols ++ ["שם תכנית בפלטפורמה"]).filter
      (fun c => !(["שם תכנית בפלטפורמה", "שם קשת טי וי"].contains c)) = t.cols := by
    rw [List.filter_append, filter_not_contains_eq_self _ _ hcols2]
    simp
  have keydd : ∀ r ∈ t.rows, ∀ a b : Cell,
      dropRowCells (t.cols ++ ["שם תכנית בפלטפורמה"]) ["שם תכנית בפלטפורמה", "שם קשת טי וי"]
        (dropRowCells (t.cols ++ ["HOUSE_NUMBER", "שם תכנית בפלטפורמה"]) ["HOUSE_NUMBER"]
          (r ++ [a, b])) = r := by
    intro r hr a b
    have hrl : t.cols.length = r.length := (hlen r hr).symm
    have e1 := dropRowCells_append t.cols ["HOUSE_NUMBER", "שם תכנית בפלטפורמה"]
      ["HOUSE_NUMBER"] r [a, b] hrl
    have e2 : dropRowCells ["HOUSE_NUMBER", "שם תכנית בפלטפורמה"] ["HOUSE_NUMBER"]
        [a, b] = [b] := rfl
    have e3 : dropRowCells t.cols ["HOUSE_NUMBER"] r = r :=
      dropRowCells_id _ _ _ hrl hcols1
    have e4 := dropRowCells_append t.cols ["שם תכנית בפלטפורמה"]
      ["שם תכנית בפלטפורמה", "שם קשת טי וי"] r [b] hrl
    have e5 : dropRowCells ["שם תכנית בפלטפורמה"] ["שם תכנית בפלטפורמה", "שם קשת טי וי"]
        [b] = [] := rfl
    have e6 : dropRowCells t.cols ["שם תכנית בפלטפורמה", "שם קשת טי וי"] r = r :=
      dropRowCells_id _ _ _ hrl hcols2
    rw [e1, e3, e2, e4, e6, e5, List.append_nil]
  unfold houseBranchTable specHouseBranchOutput
  simp only [dropColumns, List.map_map]
  rw [hcols2eq, hcols3eq]
  congr 1
  rw [List.map_flatten, List.map_map]
  unfold dedupRows
  refine dedup_flatten_blocks _ t.rows ?_ []
  intro r hr
  constructor
  · rcases hmatch : houseMatches db (cellAt t.cols r hc) with _ | ⟨m, ms⟩ <;>
      simp [Function.comp, hmatch]
  · intro y hy
    simp only [Function.comp_apply, List.mem_map] at hy
    obtain ⟨u, hu, huy⟩ := hy
    rcases hmatch : houseMatches db (cellAt t.cols r hc) with _ | ⟨m, ms⟩
    · rw [hmatch] at hu
      simp only [List.mem_singleton] at hu
      subst hu
      exact huy ▸ keydd r hr none none
    · rw [hmatch] at hu
      obtain ⟨w, hw, hwu⟩ := List.mem_map.mp hu
      exact huy ▸ hwu ▸ keydd r hr w.house w.platform

/-- Concrete instance for C10 (amended): one duplicated row collapses to a
single occurrence and the joined columns leave no trace. -/
theorem c10_witness :
    houseBranchTable [⟨some "1", some "n", some "p"⟩] "קוד מזהה"
        ⟨["קוד מזהה"], [[some "1"], [some "1"], [some "2"]]⟩
      = specHouseBranchOutput ⟨["קוד מזהה"], [[some "1"], [some "1"], [some "2"]]⟩ :=
  c10_house_branch_refinement [⟨some "1", some "n", some "p"⟩] _ "קוד מזהה"
    (by decide) (by decide) (by decide) (by decide) (by decide)

/-! ### C4: per-file totality of the reconciliation stage -/

/-- C4 counterexample: a cleaned CSV output from the extraction stage gets no
entry at all from `map_house_numbers` (its name does not end in
`.xlsx`/`.xls`, so the loop skips it), contradicting "exactly one
corresponding output entry ... including cleaned CSV outputs". -/
theorem c4_counterexample :
    mapHouseNumbers [] [("cleaned_report.csv", ⟨["A"], [[some "1"]]⟩)] = [] := by
  rfl

/-- Claim C4 (amended): the reconciliation stage produces exactly one output
entry for every extraction output whose name ends in `.xlsx`/`.xls` (cleaned
CSV outputs are skipped and get none), and when no vendor rule resolves for
the file name, or the resolved column is absent from the table, the table is
passed through unchanged rather than dropped or raising an error. -/
theorem c4_reconciler_totality (db : List DbRow) (files : List (String × Table)) :
    mapHouseNumbers db files
      = (files.filter fun ft => isExcelName ft.1).map
          (fun ft => ("mapped_" ++ ft.1, processTable db ft.1 ft.2))
  ∧ (∀ name t, decideProgramCol name = none → decideHouseKeyCol name = none →
      processTable db name t = t)
  ∧ (∀ name t pc, decideProgramCol name = some pc → pc ∉ t.cols →
      processTable db name t = t)
  ∧ (∀ name t hc, decideProgramCol name = none → decideHouseKeyCol name = some hc →
      hc ∉ t.cols → processTable db name t = t) := by
  refine ⟨?_, ?_, ?_, ?_⟩
  · induction files with
    | nil => rfl
    | cons f fs ih =>
      simp only [mapHouseNumbers, List.filterMap_cons, List.filter_cons] at *
      by_cases hf : isExcelName f.1 <;> simp [hf, ih]
  · intro name t h1 h2
    simp [processTable, h1, h2]
  · intro name t pc h1 h2
    simp [processTable, h1, h2]
  · intro name t hc h1 h2 h3
    simp [processTable, h1, h2, h3]

/-- Concrete instance for C4 (amended): one Excel-named file with no vendor
rule passes through unchanged as a single `mapped_` entry. -/
theorem c4_witness :
    mapHouseNumbers [] [("cleaned_data_Sheet1.xlsx", ⟨["A"], [[some "1"]]⟩)]
      = [("mapped_cleaned_data_Sheet1.xlsx", ⟨["A"], [[some "1"]]⟩)] := by
  have h := (c4_reconciler_totality [] [("cleaned_data_Sheet1.xlsx", ⟨["A"], [[some "1"]]⟩)]).1
  rw [h]
  have hpass := (c4_reconciler_totality ([] : List DbRow) []).2.1 "cleaned_data_Sheet1.xlsx"
    (⟨["A"], [[some "1"]]⟩ : Table) (by rfl) (by rfl)
  simp only [List.filter_cons, List.filter_nil]
  rw [if_pos (by decide)]
  simp [hpass]

/-! ### C6: the populator's per-file gates -/

lemma platform_isSome_of_templateProg (n : String)
    (h : (decideTemplateProgramCol n).isSome) : (decidePlatformLabel n).isSome := by
  unfold decideTemplateProgramCol at h
  unfold decidePlatformLabel
  split_ifs at h ⊢ <;> simp_all

/-- Claim C6: a mapped Excel file produces exactly one filled document iff the
program and viewer-count roles resolve from its name, the platform label
resolves, and each resolved source column (program, house, viewers) is present
in the table; otherwise it produces no output document — given a template
whose fixed header row carries the four required labels. -/
theorem c6_populator_gates (H : List Cell) (m name : String) (t : Table)
    (hx : isExcelName name = true)
    (h1 : (headerColIdx H "שם תוכנית בפלטפורמה").isSome)
    (h2 : (headerColIdx H "מספר האוס בקשת TV").isSome)
    (h3 : (headerColIdx H "כמות צפיות").isSome)
    (h4 : (headerColIdx H "תאריך").isSome) :
    (fillOne H m name t).isSome ↔
      ((∃ pc, decideTemplateProgramCol name = some pc ∧ pc ∈ t.cols)
        ∧ (∃ vc, decideViewersCol name = some vc ∧ vc ∈ t.cols)
        ∧ (decidePlatformLabel name).isSome
        ∧ decideMappedHouseCol name ∈ t.cols) := by
  unfold fillOne
  rw [hx]
  simp only [Bool.not_true, Bool.false_eq_true, if_false]
  cases hpc : decideTemplateProgramCol name with
  | none => simp [hpc]
  | some pc =>
    cases hvc : decideViewersCol name with
    | none => simp [hvc]
    | some vc =>
      have hplat : (decidePlatformLabel name).isSome :=
        platform_isSome_of_templateProg name (by rw [hpc]; rfl)
      obtain ⟨i1, e1⟩ := Option.isSome_iff_exists.mp h1
      obtain ⟨i2, e2⟩ := Option.isSome_iff_exists.mp h2
      obtain ⟨i3, e3⟩ := Option.isSome_iff_exists.mp h3
      obtain ⟨i4, e4⟩ := Option.isSome_iff_exists.mp h4
      by_cases hp : pc ∈ t.cols
      · by_cases hh : decideMappedHouseCol name ∈ t.cols
        · by_cases hv : vc ∈ t.cols
          · simp [hp, hh, hv, e1, e2, e3, e4, hplat]
          · simp [hp, hh, hv]
        · simp [hp, hh]
      · simp [hp]

/-- Concrete instance for C6: a Cellcom-named mapped file with all three
resolved columns present and a template carrying the four required headers
produces a document. -/
theorem c6_witness :
    (fillOne [some "שם תוכנית בפלטפורמה", some "מספר האוס בקשת TV",
        some "כמות צפיות", some "תאריך"] "09/2026" "mapped_cleaned_סלקום_דוח.xlsx"
      ⟨["שם פריט", "קוד מזהה", "כמות הזמנות"], []⟩).isSome :=
  (c6_populator_gates _ _ _ _ (by decide) (by decide) (by decide) (by decide)
    (by decide)).mpr
    ⟨⟨"שם פריט", by decide, by decide⟩, ⟨"כמות הזמנות", by decide, by decide⟩,
      by decide, by decide⟩

/-! ### C7: the row-appending loop -/

lemma writeLoop_eq (pI hI vI dI : Nat) (m : String) :
    ∀ (rows : List (Cell × Cell × Cell)) (n : Nat),
      writeLoop pI hI vI dI m n rows
        = (((rows.filter fun r => !(rowEmpty3 r.1 r.2.1 r.2.2)).enumFrom n).map
            fun ir => [(ir.1, pI, some (pyStr ir.2.1)), (ir.1, hI, ir.2.2.1),
              (ir.1, vI, ir.2.2.2), (ir.1, dI, some m)]).flatten := by
  intro rows
  induction rows with
  | nil => intro n; rfl
  | cons r rs ih =>
    intro n
    obtain ⟨p, h, v⟩ := r
    cases hE : rowEmpty3 p h v
    · simp [writeLoop, hE, List.filter_cons, List.enumFrom_cons, ih (n + 1)]
    · simp [writeLoop, hE, List.filter_cons, ih n]

/-- Claim C7: during template population, a source row whose program, house
identifier and viewer-count values are all empty writes nothing and consumes
no row slot; every other row writes its four cells (program as text, house and
viewers raw, the month string as the date) into the resolved columns, rows
advancing one at a time from immediately below the header row with no
blank-row gaps — the writes are exactly the non-empty rows enumerated
consecutively from `HEADER_ROW + 1`. -/
theorem c7_populator_row_writes (pI hI vI dI : Nat) (m : String)
    (rows : List (Cell × Cell × Cell)) :
    writeLoop pI hI vI dI m (HEADER_ROW + 1) rows
      = (((rows.filter fun r => !(rowEmpty3 r.1 r.2.1 r.2.2)).enumFrom
            (HEADER_ROW + 1)).map
          fun ir => [(ir.1, pI, some (pyStr ir.2.1)), (ir.1, hI, ir.2.2.1),
            (ir.1, vI, ir.2.2.2), (ir.1, dI, some m)]).flatten :=
  writeLoop_eq pI hI vI dI m rows (HEADER_ROW + 1)

lemma cleanOp_spec (l : List Char) (h : cleanOp l = true) :
    l ≠ []
    ∧ (∀ c ∈ l, noDashChar c = true)
    ∧ (∀ c ∈ l, isWS c = true → c = ' ')
    ∧ normSpaced l = true
    ∧ (∀ c, l.head? = some c → isWS c = false)
    ∧ (∀ c, l.getLast? = some c → isWS c = false) := by
  simp only [cleanOp, Bool.and_eq_true, List.all_eq_true] at h
  obtain ⟨⟨⟨⟨hne, hall⟩, hns⟩, hhead⟩, hlast⟩ := h
  refine ⟨?_, ?_, ?_, hns, ?_, ?_⟩
  · intro he
    subst he
    simp at hne
  · intro c hc
    exact (hall c hc).1
  · intro c hc hw
    have := (hall c hc).2
    rcases (Bool.or_eq_true _ _).mp this with h1 | h2
    · rw [hw] at h1
      simp at h1
    · exact eq_of_beq h2
  · intro c hc
    rw [hc] at hhead
    simpa using hhead
  · intro c hc
    rw [hc] at hlast
    simpa using hlast

lemma noDash_beq_false {c : Char} (h : noDashChar c = true) : (c == '-') = false := by
  simp only [noDashChar, Bool.not_eq_true', Bool.or_eq_false_iff] at h
  exact h.1.1

lemma replaceDashChar_of_noDash {c : Char} (h : noDashChar c = true) :
    replaceDashChar c = c := by
  simp only [noDashChar, Bool.not_eq_true', Bool.or_eq_false_iff] at h
  simp [replaceDashChar, h.1.2, h.2]

lemma map_replaceDash_of_noDash (l : List Char) (h : ∀ c ∈ l, noDashChar c = true) :
    l.map replaceDashChar = l := by
  induction l with
  | nil => rfl
  | cons c rest ih =>
    simp only [List.map_cons]
    rw [replaceDashChar_of_noDash (h c (List.mem_cons_self c rest)),
      ih fun d hd => h d (List.mem_cons_of_mem c hd)]

lemma subDashAux_skip : ∀ (A : List Char), A ≠ [] →
    (∀ c ∈ A, (c == '-') = false) →
    (∀ c, A.getLast? = some c → isWS c = false) →
    ∀ (t pend : List Char),
      subDashAux false pend (A ++ t) = pend.reverse ++ A ++ subDashAux false [] t := by
  intro A
  induction A with
  | nil => intro h; exact absurd rfl h
  | cons a A' ih =>
    intro _ hnd hlast t pend
    have hand : (a == '-') = false := hnd a (List.mem_cons_self a A')
    rcases A' with _ | ⟨b, A''⟩
    · have haw : isWS a = false := hlast a rfl
      simp only [List.cons_append, List.nil_append, subDashAux, hand, haw,
        Bool.false_eq_true, if_false]
      simp
    · have hlast' : ∀ c, (b :: A'').getLast? = some c → isWS c = false := by
        intro c hc
        exact hlast c (by rw [List.getLast?_cons_cons]; exact hc)
      have hnd' : ∀ c ∈ b :: A'', (c == '-') = false := fun c hc =>
        hnd c (List.mem_cons_of_mem a hc)
      have ihx := ih (by simp) hnd' hlast' t
      cases haw : isWS a
      · rw [List.cons_append, subDashAux.eq_2]
        simp only [hand, haw, Bool.false_eq_true, if_false]
        rw [ihx []]
        simp
      · rw [List.cons_append, subDashAux.eq_2]
        simp only [hand, haw, Bool.false_eq_true, if_false, if_true]
        rw [ihx (a :: pend)]
        simp

lemma subDashAux_nil_false (pend : List Char) :
    subDashAux false pend [] = pend.reverse := rfl

lemma subDashAux_skip_nil (A : List Char) (hne : A ≠ [])
    (hnd : ∀ c ∈ A, (c == '-') = false)
    (hlast : ∀ c, A.getLast? = some c → isWS c = false) :
    subDashAux false [] A = A := by
  have := subDashAux_skip A hne hnd hlast [] []
  simpa [subDashAux] using this

lemma subDashAux_afterDash (B : List Char) (hne : B ≠ [])
    (hnd : ∀ c ∈ B, (c == '-') = false)
    (hhead : ∀ c, B.head? = some c → isWS c = false)
    (hlast : ∀ c, B.getLast? = some c → isWS c = false) :
    subDashAux true [] B = B := by
  rcases B with _ | ⟨b, B'⟩
  · exact absurd rfl hne
  · have hbd : (b == '-') = false := hnd b (List.mem_cons_self b B')
    have hbw : isWS b = false := hhead b rfl
    simp only [subDashAux, hbd, hbw, Bool.false_eq_true, if_false, if_true]
    rcases B' with _ | ⟨c, B''⟩
    · rfl
    · have : subDashAux false [] (c :: B'') = c :: B'' := by
        refine subDashAux_skip_nil (c :: B'') (by simp) ?_ ?_
        · exact fun d hd => hnd d (List.mem_cons_of_mem b hd)
        · intro d hd
          exact hlast d (by rw [List.getLast?_cons_cons]; exact hd)
      rw [this]
      rfl

lemma collapseWSAux_pair : ∀ (l : List Char), normSpaced l = true →
    (∀ c ∈ l, isWS c = true → c = ' ') →
    (collapseWSAux false l = l
      ∧ ((∀ c, l.head? = some c → isWS c = false) → collapseWSAux true l = l)) := by
  intro l
  induction l with
  | nil => intro _ _; exact ⟨rfl, fun _ => rfl⟩
  | cons c rest ih =>
    intro hns hws
    have hns' : normSpaced rest = true := by
      rcases rest with _ | ⟨b, r'⟩
      · rfl
      · simp only [normSpaced, Bool.and_eq_true] at hns
        exact hns.2
    have hpair : isWS c = true → ∀ d, rest.head? = some d → isWS d = false := by
      intro hcw d hd
      rcases rest with _ | ⟨b, r'⟩
      · simp at hd
      · simp only [List.head?_cons, Option.some.injEq] at hd
        subst hd
        simp only [normSpaced, Bool.and_eq_true, Bool.not_eq_true',
          Bool.and_eq_false_iff] at hns
        rcases hns.1 with h1 | h1
        · rw [hcw] at h1
          simp at h1
        · exact h1
    have ihp := ih hns' fun d hd hw => hws d (List.mem_cons_of_mem c hd) hw
    cases hcw : isWS c
    · refine ⟨?_, fun _ => ?_⟩ <;>
        · rw [collapseWSAux.eq_2]
          simp only [hcw, Bool.false_eq_true, if_false]
          rw [ihp.1]
    · have hsp : c = ' ' := hws c (List.mem_cons_self c rest) hcw
      refine ⟨?_, ?_⟩
      · rw [collapseWSAux.eq_2]
        simp only [hcw, if_true]
        rw [ihp.2 (hpair hcw), hsp]
        simp
      · intro hhead
        have := hhead c rfl
        rw [hcw] at this
        simp at this

lemma collapseWS_id (l : List Char) (hns : normSpaced l = true)
    (hws : ∀ c ∈ l, isWS c = true → c = ' ') : collapseWS l = l :=
  (collapseWSAux_pair l hns hws).1

lemma normSpaced_append : ∀ (xs ys : List Char), normSpaced xs = true →
    normSpaced ys = true →
    (∀ a b, xs.getLast? = some a → ys.head? = some b → (isWS a && isWS b) = false) →
    normSpaced (xs ++ ys) = true := by
  intro xs
  induction xs with
  | nil => intro ys _ hys _; simpa using hys
  | cons x xs' ih =>
    intro ys hxs hys hj
    rcases xs' with _ | ⟨x2, xs''⟩
    · rcases ys with _ | ⟨y, ys'⟩
      · simpa using hxs
      · simp only [List.singleton_append, normSpaced, Bool.and_eq_true]
        refine ⟨?_, hys⟩
        rw [Bool.not_eq_true']
        exact hj x y rfl rfl
    · simp only [normSpaced, Bool.and_eq_true] at hxs
      simp only [List.cons_append, normSpaced, Bool.and_eq_true]
      refine ⟨hxs.1, ?_⟩
      show normSpaced ((x2 :: xs'') ++ ys) = true
      exact ih ys hxs.2 hys fun a b ha hb =>
        hj a b (by rw [List.getLast?_cons_cons]; exact ha) hb

lemma dropWhile_eq_self_of_head (l : List Char)
    (hhead : ∀ c, l.head? = some c → isWS c = false) :
    l.dropWhile isWS = l := by
  rcases l with _ | ⟨c, rest⟩
  · rfl
  · rw [List.dropWhile_cons]
    simp [hhead c rfl]

lemma stripWS_id (l : List Char)
    (hhead : ∀ c, l.head? = some c → isWS c = false)
    (hlast : ∀ c, l.getLast? = some c → isWS c = false) :
    stripWS l = l := by
  unfold stripWS
  rw [dropWhile_eq_self_of_head l hhead]
  rw [dropWhile_eq_self_of_head l.reverse (by
    intro c hc
    rw [List.head?_reverse] at hc
    exact hlast c hc)]
  exact List.reverse_reverse l

lemma splitFirstSep_sep (B : List Char) :
    ∀ (A : List Char), (∀ c ∈ A, (c == '-') = false) →
      splitFirstSep (A ++ ' ' :: '-' :: ' ' :: B) = some (A, B) := by
  intro A
  induction A with
  | nil =>
    intro _
    simp [splitFirstSep]
  | cons a A' ih =>
    intro hnd
    have hcond : (a == ' ' && ((A' ++ ' ' :: '-' :: ' ' :: B).take 2 == ['-', ' '])) = false := by
      rcases A' with _ | ⟨c1, A''⟩
      · simp
      · rcases A'' with _ | ⟨c2, A'''⟩
        · simp [hnd c1 (by simp)]
        · simp [hnd c1 (by simp)]
    rw [List.cons_append, splitFirstSep.eq_2]
    simp only [hcond, Bool.false_eq_true, if_false]
    rw [ih fun c hc => hnd c (List.mem_cons_of_mem a hc)]

lemma splitFirstSep_none : ∀ (l : List Char), (∀ c ∈ l, (c == '-') = false) →
    splitFirstSep l = none := by
  intro l
  induction l with
  | nil => intro _; rfl
  | cons c rest ih =>
    intro hnd
    have hcond : (c == ' ' && (rest.take 2 == ['-', ' '])) = false := by
      rcases rest with _ | ⟨c1, r'⟩
      · simp
      · rcases r' with _ | ⟨c2, r''⟩
        · simp [hnd c1 (by simp)]
        · simp [hnd c1 (by simp)]
    rw [splitFirstSep.eq_2]
    simp only [hcond, Bool.false_eq_true, if_false]
    rw [ih fun d hd => hnd d (List.mem_cons_of_mem c hd)]

lemma subDashAux_no_dash : ∀ (l : List Char) (pend : List Char) (ad : Bool),
    (∀ c ∈ l, (c == '-') = false) → (∀ c ∈ pend, (c == '-') = false) →
    ∀ c ∈ subDashAux ad pend l, (c == '-') = false := by
  intro l
  induction l with
  | nil =>
    intro pend ad _ hpend c hc
    rcases ad with _ | _
    · simp only [subDashAux, Bool.false_eq_true, if_false, List.mem_reverse] at hc
      exact hpend c hc
    · simp [subDashAux] at hc
  | cons a rest ih =>
    intro pend ad hl hpend c hc
    have had : (a == '-') = false := hl a (List.mem_cons_self a rest)
    have hrest : ∀ d ∈ rest, (d == '-') = false := fun d hd =>
      hl d (List.mem_cons_of_mem a hd)
    rw [subDashAux.eq_2] at hc
    simp only [had, Bool.false_eq_true, if_false] at hc
    cases haw : isWS a
    · rw [haw] at hc
      simp only [Bool.false_eq_true, if_false] at hc
      rcases ad with _ | _
      · simp only [Bool.false_eq_true, if_false, List.append_assoc, List.mem_append,
          List.mem_reverse, List.mem_singleton] at hc
        rcases hc with h1 | h2 | h3
        · exact hpend c h1
        · exact h2 ▸ had
        · exact ih [] false hrest (by simp) c h3
      · simp only [if_true, List.mem_append, List.mem_singleton] at hc
        rcases hc with h1 | h2
        · exact h1 ▸ had
        · exact ih [] false hrest (by simp) c h2
    · rw [haw] at hc
      simp only [if_true] at hc
      rcases ad with _ | _
      · simp only [Bool.false_eq_true, if_false] at hc
        refine ih (a :: pend) false hrest ?_ c hc
        intro d hd
        rcases List.mem_cons.mp hd with h1 | h2
        · exact h1 ▸ had
        · exact hpend d h2
      · simp only [if_true] at hc
        exact ih [] true hrest (by simp) c hc

lemma collapseWSAux_no_dash : ∀ (l : List Char) (ad : Bool),
    (∀ c ∈ l, (c == '-') = false) →
    ∀ c ∈ collapseWSAux ad l, (c == '-') = false := by
  intro l
  induction l with
  | nil => intro ad _ c hc; simp [collapseWSAux] at hc
  | cons a rest ih =>
    intro ad hl c hc
    have hrest : ∀ d ∈ rest, (d == '-') = false := fun d hd =>
      hl d (List.mem_cons_of_mem a hd)
    rw [collapseWSAux.eq_2] at hc
    cases haw : isWS a <;> rw [haw] at hc
    · simp only [Bool.false_eq_true, if_false, List.mem_cons] at hc
      rcases hc with h1 | h2
      · exact h1 ▸ hl a (List.mem_cons_self a rest)
      · exact ih false hrest c h2
    · simp only [if_true] at hc
      rcases ad with _ | _
      · simp only [Bool.false_eq_true, if_false, List.mem_cons] at hc
        rcases hc with h1 | h2
        · subst h1; rfl
        · exact ih true hrest c h2
      · simp only [if_true] at hc
        exact ih true hrest c hc

lemma stripWS_subset (l : List Char) : ∀ c ∈ stripWS l, c ∈ l := by
  intro c hc
  unfold stripWS at hc
  rw [List.mem_reverse] at hc
  have h1 := (List.dropWhile_sublist (l := (l.dropWhile isWS).reverse) isWS).mem hc
  rw [List.mem_reverse] at h1
  exact (List.dropWhile_sublist isWS).mem h1

lemma normalizeDashL_no_dash (l : List Char) (h : ∀ c ∈ l, noDashChar c = true) :
    ∀ c ∈ normalizeDashL l, (c == '-') = false := by
  intro c hc
  unfold normalizeDashL at hc
  rw [map_replaceDash_of_noDash l h] at hc
  have h1 := stripWS_subset _ c hc
  have h2 := collapseWSAux_no_dash _ false
    (subDashAux_no_dash l [] false (fun d hd => noDash_beq_false (h d hd)) (by simp))
  exact h2 c h1

lemma subDash_dash (A B : List Char) (hA : cleanOp A = true) (hB : cleanOp B = true) :
    subDash (A ++ '-' :: B) = A ++ ' ' :: '-' :: ' ' :: B := by
  obtain ⟨hAne, hAnd, _, _, _, hAlast⟩ := cleanOp_spec A hA
  obtain ⟨hBne, hBnd, _, _, hBhead, hBlast⟩ := cleanOp_spec B hB
  unfold subDash
  rw [subDashAux_skip A hAne (fun c hc => noDash_beq_false (hAnd c hc)) hAlast ('-' :: B) []]
  rw [subDashAux.eq_2]
  simp only [List.reverse_nil, List.nil_append, beq_self_eq_true, if_true]
  rw [subDashAux_afterDash B hBne (fun c hc => noDash_beq_false (hBnd c hc)) hBhead hBlast]

lemma subDash_sep (A B : List Char) (hA : cleanOp A = true) (hB : cleanOp B = true) :
    subDash (A ++ ' ' :: '-' :: ' ' :: B) = A ++ ' ' :: '-' :: ' ' :: B := by
  obtain ⟨hAne, hAnd, _, _, _, hAlast⟩ := cleanOp_spec A hA
  obtain ⟨hBne, hBnd, _, _, hBhead, hBlast⟩ := cleanOp_spec B hB
  unfold subDash
  rw [subDashAux_skip A hAne (fun c hc => noDash_beq_false (hAnd c hc)) hAlast
    (' ' :: '-' :: ' ' :: B) []]
  rw [subDashAux.eq_2]
  have e1 : ((' ' : Char) == '-') = false := rfl
  have e2 : isWS ' ' = true := rfl
  simp only [List.reverse_nil, List.nil_append, e1, e2, Bool.false_eq_true, if_false, if_true]
  rw [subDashAux.eq_2]
  simp only [beq_self_eq_true, if_true]
  rw [subDashAux.eq_2]
  simp only [e1, e2, Bool.false_eq_true, if_false, if_true]
  rw [subDashAux_afterDash B hBne (fun c hc => noDash_beq_false (hBnd c hc)) hBhead hBlast]

lemma midform_id (A B : List Char) (hA : cleanOp A = true) (hB : cleanOp B = true) :
    stripWS (collapseWS (A ++ ' ' :: '-' :: ' ' :: B)) = A ++ ' ' :: '-' :: ' ' :: B := by
  obtain ⟨hAne, _, hAws, hAns, hAhead, hAlast⟩ := cleanOp_spec A hA
  obtain ⟨hBne, _, hBws, hBns, hBhead, hBlast⟩ := cleanOp_spec B hB
  have edash : isWS '-' = false := rfl
  have espace : isWS ' ' = true := rfl
  have hnsmid : normSpaced (' ' :: '-' :: ' ' :: B) = true := by
    rcases B with _ | ⟨b, B'⟩
    · exact absurd rfl hBne
    · have hbw : isWS b = false := hBhead b rfl
      simp [normSpaced, edash, espace, hbw, hBns]
  have hnsfull : normSpaced (A ++ ' ' :: '-' :: ' ' :: B) = true := by
    refine normSpaced_append A _ hAns hnsmid ?_
    intro a b' ha hb'
    simp only [List.head?_cons, Option.some.injEq] at hb'
    subst hb'
    rw [hAlast a ha]
    rfl
  have hwsfull : ∀ c ∈ A ++ ' ' :: '-' :: ' ' :: B, isWS c = true → c = ' ' := by
    intro c hc hw
    rcases List.mem_append.mp hc with h1 | h2
    · exact hAws c h1 hw
    · rcases List.mem_cons.mp h2 with h3 | h4
      · exact h3
      · rcases List.mem_cons.mp h4 with h5 | h6
        · rw [h5] at hw
          exact absurd hw (by simp [edash])
        · rcases List.mem_cons.mp h6 with h7 | h8
          · exact h7
          · exact hBws c h8 hw
  have hheadfull : ∀ c, (A ++ ' ' :: '-' :: ' ' :: B).head? = some c → isWS c = false := by
    rcases A with _ | ⟨a, A'⟩
    · exact absurd rfl hAne
    · intro c hc
      rw [List.cons_append, List.head?_cons] at hc
      simp only [Option.some.injEq] at hc
      subst hc
      exact hAhead a rfl
  have hlastfull : ∀ c, (A ++ ' ' :: '-' :: ' ' :: B).getLast? = some c → isWS c = false := by
    intro c hc
    rw [List.getLast?_append_of_ne_nil A (List.cons_ne_nil ' ' ('-' :: ' ' :: B))] at hc
    rcases B with _ | ⟨b, B'⟩
    · exact absurd rfl hBne
    · rw [List.getLast?_cons_cons, List.getLast?_cons_cons, List.getLast?_cons_cons] at hc
      exact hBlast c hc
  rw [collapseWS_id _ hnsfull hwsfull, stripWS_id _ hheadfull hlastfull]

/-- C9 counterexample: with the dash-free operands `A = " x"` and `B = "z"`,
`"A-B"` does not normalize to the literal key `"A - B"` (the code also strips
and collapses whitespace), so the claim's identity fails as stated for
operands that merely contain no dash. -/
theorem c9_counterexample : normalize_dash " x-z" ≠ " x - z" := by
  decide

/-- Claim C9 (amended): for operand strings `A`, `B` that are nonempty, contain
none of the three dash characters, use only plain single spaces as whitespace
and none at either end, the three spellings `"A—B"`, `"A - B"`, `"A-B"` all
normalize to the identical key `"A - B"`; the swap of `"A - B"` is
`"B - A"`; and on any string with no dash characters the swap operation
returns no result. -/
theorem c9_dash_normalization (A B : List Char)
    (hA : cleanOp A = true) (hB : cleanOp B = true) :
    normalize_dash ⟨A ++ '—' :: B⟩ = ⟨A ++ ' ' :: '-' :: ' ' :: B⟩
  ∧ normalize_dash ⟨A ++ ' ' :: '-' :: ' ' :: B⟩ = ⟨A ++ ' ' :: '-' :: ' ' :: B⟩
  ∧ normalize_dash ⟨A ++ '-' :: B⟩ = ⟨A ++ ' ' :: '-' :: ' ' :: B⟩
  ∧ swap_dash ⟨A ++ ' ' :: '-' :: ' ' :: B⟩ = some ⟨B ++ ' ' :: '-' :: ' ' :: A⟩
  ∧ (∀ s : List Char, (∀ c ∈ s, noDashChar c = true) → swap_dash ⟨s⟩ = none) := by
  obtain ⟨hAne, hAnd, hAws, hAns, hAhead, hAlast⟩ := cleanOp_spec A hA
  obtain ⟨hBne, hBnd, hBws, hBns, hBhead, hBlast⟩ := cleanOp_spec B hB
  have hmapA : A.map replaceDashChar = A := map_replaceDash_of_noDash A hAnd
  have hmapB : B.map replaceDashChar = B := map_replaceDash_of_noDash B hBnd
  have hplain : normalizeDashL (A ++ '-' :: B) = A ++ ' ' :: '-' :: ' ' :: B := by
    unfold normalizeDashL
    rw [List.map_append, hmapA, List.map_cons, hmapB]
    rw [show replaceDashChar '-' = '-' from rfl]
    rw [subDash_dash A B hA hB]
    exact midform_id A B hA hB
  have hsep : normalizeDashL (A ++ ' ' :: '-' :: ' ' :: B) = A ++ ' ' :: '-' :: ' ' :: B := by
    unfold normalizeDashL
    rw [List.map_append, hmapA, List.map_cons, List.map_cons, List.map_cons, hmapB]
    rw [show replaceDashChar '-' = '-' from rfl, show replaceDashChar ' ' = ' ' from rfl]
    rw [subDash_sep A B hA hB]
    exact midform_id A B hA hB
  have hem : normalizeDashL (A ++ '—' :: B) = A ++ ' ' :: '-' :: ' ' :: B := by
    unfold normalizeDashL
    rw [List.map_append, hmapA, List.map_cons, hmapB]
    rw [show replaceDashChar '—' = '-' from rfl]
    rw [subDash_dash A B hA hB]
    exact midform_id A B hA hB
  refine ⟨?_, ?_, ?_, ?_, ?_⟩
  · show (⟨normalizeDashL (A ++ '—' :: B)⟩ : String) = ⟨A ++ ' ' :: '-' :: ' ' :: B⟩
    rw [hem]
  · show (⟨normalizeDashL (A ++ ' ' :: '-' :: ' ' :: B)⟩ : String)
        = ⟨A ++ ' ' :: '-' :: ' ' :: B⟩
    rw [hsep]
  · show (⟨normalizeDashL (A ++ '-' :: B)⟩ : String) = ⟨A ++ ' ' :: '-' :: ' ' :: B⟩
    rw [hplain]
  · show (match splitFirstSep (normalizeDashL (A ++ ' ' :: '-' :: ' ' :: B)) with
      | none => none
      | some (l, r) => some (⟨stripWS r ++ ' ' :: '-' :: ' ' :: stripWS l⟩ : String))
        = some ⟨B ++ ' ' :: '-' :: ' ' :: A⟩
    rw [hsep, splitFirstSep_sep B A fun c hc => noDash_beq_false (hAnd c hc)]
    show some (⟨stripWS B ++ ' ' :: '-' :: ' ' :: stripWS A⟩ : String)
        = some ⟨B ++ ' ' :: '-' :: ' ' :: A⟩
    rw [stripWS_id A hAhead hAlast, stripWS_id B hBhead hBlast]
  · intro s hs
    show (match splitFirstSep (normalizeDashL s) with
      | none => none
      | some (l, r) => some (⟨stripWS r ++ ' ' :: '-' :: ' ' :: stripWS l⟩ : String))
        = none
    rw [splitFirstSep_none _ (normalizeDashL_no_dash s hs)]

/-- Concrete instance for C9 (amended): `"Tel Aviv"` / `"Gala"` as operands. -/
theorem c9_witness :
    normalize_dash ⟨"Tel Aviv".data ++ '—' :: "Gala".data⟩
        = ⟨"Tel Aviv".data ++ ' ' :: '-' :: ' ' :: "Gala".data⟩
  ∧ swap_dash ⟨"Tel Aviv".data ++ ' ' :: '-' :: ' ' :: "Gala".data⟩
        = some ⟨"Gala".data ++ ' ' :: '-' :: ' ' :: "Tel Aviv".data⟩ := by
  have h := c9_dash_normalization "Tel Aviv".data "Gala".data (by decide) (by decide)
  exact ⟨h.1, h.2.2.2.1⟩

end ViewReports

